import Mathlib

/-!
Verification development for the xlit-tool transliteration engine.

The Python sources under `src/` are embedded shallowly:

* Python strings are `String` (a list of `Char`); machine behaviour of the
  `re` module on the concrete patterns the program compiles is modelled by
  explicit scanning functions over `List Char`.
* `re.sub` with an alternation of escaped literal keys
  (`utils.apply_replacements`) is modelled by a search-and-replace loop
  (`reSearch` / `applyReplF`) that finds the leftmost position where a key
  matches, picks the first-declared key there, and never rescans output.
* The four regex rule shapes that occur in the shipped rule sets
  (a plain literal, `X([class])` with `\1` in the rewrite, `([class])X`
  with `\1`, and `\bX`) are embedded as the `RegexRule` datatype.
* Python's Unicode case predicates (`str.isupper`, `str.upper`,
  `str.title`, regex `\w`) are modelled by explicit tables covering the
  alphabets this program ships: ASCII, Latin-1/Latin Extended letters,
  Cyrillic (U+0400–U+04FF), Georgian Mkhedruli (U+10D0–U+10FA, caseless
  titlecase, uppercase = Mtavruli) and Mtavruli (U+1C90–U+1CBF).
-/

namespace XlitTool

/-- ASCII apostrophe, written by code point. -/
def apos : Char := Char.ofNat 39

/-- The one-character string holding an ASCII apostrophe. -/
def aposS : String := String.mk [apos]

/-- Model of the word characters (regex `\w`) of Python's `re` module,
restricted to the character ranges the shipped rule sets and tests use:
ASCII alphanumerics and underscore, Latin-1/Latin Extended letters,
Cyrillic, Georgian and Georgian Mtavruli. -/
def isWordChar (c : Char) : Bool :=
  decide ((48 ≤ c.toNat ∧ c.toNat ≤ 57) ∨
    (65 ≤ c.toNat ∧ c.toNat ≤ 90) ∨
    (97 ≤ c.toNat ∧ c.toNat ≤ 122) ∨
    c.toNat = 95 ∨
    (0xC0 ≤ c.toNat ∧ c.toNat ≤ 0x24F ∧ c.toNat ≠ 0xD7 ∧ c.toNat ≠ 0xF7) ∨
    (0x400 ≤ c.toNat ∧ c.toNat ≤ 0x4FF) ∨
    (0x10A0 ≤ c.toNat ∧ c.toNat ≤ 0x10FF) ∨
    (0x1C90 ≤ c.toNat ∧ c.toNat ≤ 0x1CBF))

/-- Model of Python's per-character "uppercase cased letter" predicate for
the alphabets in play (ASCII, Latin-1, Cyrillic, Georgian Mtavruli). -/
def pyIsUpperChar (c : Char) : Bool :=
  decide ((65 ≤ c.toNat ∧ c.toNat ≤ 90) ∨
    (0xC0 ≤ c.toNat ∧ c.toNat ≤ 0xDE ∧ c.toNat ≠ 0xD7) ∨
    (0x400 ≤ c.toNat ∧ c.toNat ≤ 0x42F) ∨
    (0x460 ≤ c.toNat ∧ c.toNat ≤ 0x4FF ∧ c.toNat % 2 = 0) ∨
    (0x1C90 ≤ c.toNat ∧ c.toNat ≤ 0x1CBF))

/-- Model of Python's per-character "lowercase cased letter" predicate for
the alphabets in play (Georgian Mkhedruli letters are lowercase). -/
def pyIsLowerChar (c : Char) : Bool :=
  decide ((97 ≤ c.toNat ∧ c.toNat ≤ 122) ∨
    (0xDF ≤ c.toNat ∧ c.toNat ≤ 0xFF ∧ c.toNat ≠ 0xF7) ∨
    (0x430 ≤ c.toNat ∧ c.toNat ≤ 0x45F) ∨
    (0x460 ≤ c.toNat ∧ c.toNat ≤ 0x4FF ∧ c.toNat % 2 = 1) ∨
    (0x10D0 ≤ c.toNat ∧ c.toNat ≤ 0x10FA))

/-- A character is cased when it is an uppercase or a lowercase letter. -/
def pyIsCased (c : Char) : Bool :=
  pyIsUpperChar c || pyIsLowerChar c

/-- Model of Python's per-character `str.upper` for the alphabets in play
(Georgian Mkhedruli uppercases to Mtavruli). -/
def pyToUpperChar (c : Char) : Char :=
  let n := c.toNat
  if 97 ≤ n ∧ n ≤ 122 then Char.ofNat (n - 32)
  else if 0xE0 ≤ n ∧ n ≤ 0xFE ∧ n ≠ 0xF7 then Char.ofNat (n - 32)
  else if 0x430 ≤ n ∧ n ≤ 0x44F then Char.ofNat (n - 32)
  else if 0x450 ≤ n ∧ n ≤ 0x45F then Char.ofNat (n - 80)
  else if 0x460 ≤ n ∧ n ≤ 0x4FF ∧ n % 2 = 1 then Char.ofNat (n - 1)
  else if 0x10D0 ≤ n ∧ n ≤ 0x10FA then Char.ofNat (n + 0xBC0)
  else c

/-- Model of Python's per-character `str.lower` for the alphabets in play. -/
def pyToLowerChar (c : Char) : Char :=
  let n := c.toNat
  if 65 ≤ n ∧ n ≤ 90 then Char.ofNat (n + 32)
  else if 0xC0 ≤ n ∧ n ≤ 0xDE ∧ n ≠ 0xD7 then Char.ofNat (n + 32)
  else if 0x400 ≤ n ∧ n ≤ 0x40F then Char.ofNat (n + 80)
  else if 0x410 ≤ n ∧ n ≤ 0x42F then Char.ofNat (n + 32)
  else if 0x460 ≤ n ∧ n ≤ 0x4FF ∧ n % 2 = 0 then Char.ofNat (n + 1)
  else if 0x1C90 ≤ n ∧ n ≤ 0x1CBA then Char.ofNat (n - 0xBC0)
  else c

/-- Model of Python's per-character titlecase mapping: identical to the
uppercase mapping except on Georgian Mkhedruli, whose titlecase is itself. -/
def pyToTitleChar (c : Char) : Char :=
  if 0x10D0 ≤ c.toNat ∧ c.toNat ≤ 0x10FA then c else pyToUpperChar c

/-- Every cased character is a word character. -/
theorem isWordChar_of_pyIsCased {c : Char} (h : pyIsCased c = true) :
    isWordChar c = true := by
  simp only [pyIsCased, pyIsUpperChar, pyIsLowerChar, isWordChar,
    Bool.or_eq_true, decide_eq_true_eq] at h ⊢
  omega

/-- Python `str.join` with a separator. -/
def pyJoin (sep : String) : List String → String
  | [] => ""
  | [a] => a
  | a :: b :: t => a ++ sep ++ pyJoin sep (b :: t)

/-- Python `"".join`: concatenation of a list of strings. -/
def strConcat : List String → String
  | [] => ""
  | a :: t => a ++ strConcat t

/-- Python whitespace characters relevant to `str.strip`. -/
def pyIsSpace (c : Char) : Bool :=
  decide (c.toNat = 32 ∨ c.toNat = 9 ∨ c.toNat = 10 ∨ c.toNat = 13 ∨
    c.toNat = 11 ∨ c.toNat = 12)

/-- Model of Python `str.strip()`. -/
def pyStrip (s : String) : String :=
  String.mk (((s.data.dropWhile pyIsSpace).reverse.dropWhile pyIsSpace).reverse)

/-- Model of Python `text.split(chr(10))`: split on every newline,
keeping empty pieces. -/
def splitOnNl : List Char → List (List Char)
  | [] => [[]]
  | c :: cs =>
    if c = Char.ofNat 10 then [] :: splitOnNl cs
    else
      match splitOnNl cs with
      | t :: ts => (c :: t) :: ts
      | [] => [[c]]

/-! ## Substitution engine (`src/transliteration_methods/utils.py`) -/

/-- First map entry, in declaration order, whose (nonempty) key matches at
the start of `cs`.  Models which alternative of the compiled alternation
`re.compile("|".join(map(re.escape, replacements.keys())))` matches at a
given position: Python alternation takes the first listed alternative. -/
def tryKeysAt : List (String × String) → List Char → Option (String × String)
  | [], _ => none
  | kv :: rest, cs =>
    if kv.1.data ≠ [] ∧ kv.1.data.isPrefixOf cs then some kv else tryKeysAt rest cs

/-- Model of the regex engine's search step for the alternation of the map
keys: scan left to right for the first position where some key matches and
return the text before the match, the winning entry, and the text after
the matched key. -/
def reSearch (m : List (String × String)) :
    List Char → Option (List Char × (String × String) × List Char)
  | [] => none
  | c :: cs =>
    match tryKeysAt m (c :: cs) with
    | some kv => some ([], kv, cs.drop (kv.1.data.length - 1))
    | none => (reSearch m cs).map (fun pr => (c :: pr.1, pr.2.1, pr.2.2))

/-- Model of `pattern.sub(lambda match: replacements[match.group(0)], text)`:
repeatedly search for the next match, copy the unmatched text verbatim,
emit the replacement value, and continue after the match (the replacement
is never rescanned).  `fuel` bounds the number of replacements; every match
consumes at least one character, so `fuel = length of the text` suffices. -/
def applyReplF (m : List (String × String)) : Nat → List Char → List Char
  | 0, cs => cs
  | fuel + 1, cs =>
    match reSearch m cs with
    | none => cs
    | some (pre, kv, rest) => pre ++ kv.2.data ++ applyReplF m fuel rest

/-- `utils.apply_replacements`, embedded from the source: compile the
alternation of the escaped keys and substitute each match by the value of
the literal matched key.  An empty map is a no-op (early return). -/
def apply_replacements (src_text : String) (replacements : List (String × String)) : String :=
  String.mk (applyReplF replacements src_text.data.length src_text.data)

/-- `utils.apply_replacements` with its error behaviour made explicit:
the function validates its inputs, returns the text unchanged when the map
is empty, and otherwise substitutes.  The `re.error` / generic exception
branches are unreachable for a map of escaped literal keys, so the result
is always `Except.ok`. -/
def apply_replacementsE (src_text : String) (replacements : List (String × String)) :
    Except String String :=
  if replacements.isEmpty then .ok src_text
  else .ok (apply_replacements src_text replacements)

/-- Second definition, following the specification's words for
`applyCharacterMap`: one left-to-right, non-overlapping scan; at each
position the keys are tried in declaration order and the first key
matching there is replaced by its value; replacement output is not
rescanned; positions where no key matches are copied unchanged. -/
def specScanF (m : List (String × String)) : Nat → List Char → List Char
  | 0, cs => cs
  | _ + 1, [] => []
  | fuel + 1, c :: cs =>
    match tryKeysAt m (c :: cs) with
    | some kv => kv.2.data ++ specScanF m fuel (cs.drop (kv.1.data.length - 1))
    | none => c :: specScanF m fuel cs

/-- The specification's description of the character-map scan, as a
whole-string function. -/
def specScanReplacements (src_text : String) (replacements : List (String × String)) : String :=
  String.mk (specScanF replacements src_text.data.length src_text.data)

/-- The shapes of regex rule used by the shipped rule sets:
a literal pattern; `F([class])` rewritten to a string followed by the
captured class character; `([class])S` rewritten to the captured class
character followed by a string; and `\bK` for a literal `K` starting with
a word character (matches only where the previous character is absent or
a non-word character). -/
inductive RegexRule where
  | lit (key val : String)
  | charThenClass (first : Char) (repl : String) (cls : List Char)
  | classThenChar (cls : List Char) (second : Char) (repl : String)
  | boundaryThen (key val : String)

/-- Characters that can trigger a match of a rule: a rule can only match a
piece of text containing one of these characters. -/
def ruleChars : RegexRule → List Char
  | .lit key _ => key.data
  | .charThenClass first _ _ => [first]
  | .classThenChar _ second _ => [second]
  | .boundaryThen key _ => key.data

/-- Whether a rule matches at the start of `cs`, where `prev` is the
character just before this position (`none` at the start of the text).
Returns the length of the matched text and the replacement characters. -/
def ruleMatch (r : RegexRule) (prev : Option Char) (cs : List Char) :
    Option (Nat × List Char) :=
  match r with
  | .lit key val =>
    if key.data ≠ [] ∧ key.data.isPrefixOf cs then some (key.data.length, val.data) else none
  | .charThenClass first repl cls =>
    match cs with
    | a :: b :: _ => if a = first ∧ b ∈ cls then some (2, repl.data ++ [b]) else none
    | _ => none
  | .classThenChar cls second repl =>
    match cs with
    | a :: b :: _ => if a ∈ cls ∧ b = second then some (2, a :: repl.data) else none
    | _ => none
  | .boundaryThen key val =>
    if (match prev with | none => true | some p => !isWordChar p) = true ∧
        key.data ≠ [] ∧ key.data.isPrefixOf cs then
      some (key.data.length, val.data)
    else none

/-- Model of `pattern.sub(replacement, text)` for one compiled rule:
left-to-right non-overlapping scan; after a match the scan resumes after
the matched source text (whose last character becomes the new `prev` for
word-boundary tests); replacement output is never rescanned. -/
def applySubF (r : RegexRule) : Nat → Option Char → List Char → List Char
  | 0, _, cs => cs
  | _ + 1, _, [] => []
  | fuel + 1, prev, c :: cs =>
    match ruleMatch r prev (c :: cs) with
    | some (n, rep) =>
      rep ++ applySubF r fuel (((c :: cs).take n).getLast?) (cs.drop (n - 1))
    | none => c :: applySubF r fuel (some c) cs

/-- One rule applied to a whole string. -/
def applyRegexRule (r : RegexRule) (s : String) : String :=
  String.mk (applySubF r s.data.length none s.data)

/-- `utils.apply_regex_replacements`, embedded from the source: iterate
over the rule list and replace one by one, each rule's output feeding the
next rule. -/
def apply_regex_replacements (src_text : String) (replacements : List RegexRule) : String :=
  replacements.foldl (fun t r => applyRegexRule r t) src_text

/-! ## Shipped transliteration methods (`src/transliteration_methods/`) -/

/-- A transliteration method as the rest of the system sees it: a single
`transliterate` operation. -/
structure TranslitMethod where
  transliterate : String → String

namespace ka_en_ic

/-- `char_map` of `ka_en_ic.py`, in declaration order. -/
def char_map : List (String × String) :=
  [("ა", "a"), ("ბ", "b"), ("გ", "g"), ("დ", "d"), ("ე", "e"), ("ვ", "v"),
   ("ზ", "z"), ("თ", "t"), ("ი", "i"), ("კ", "k"), ("ლ", "l"), ("მ", "m"),
   ("ნ", "n"), ("ო", "o"), ("პ", "p"), ("ჟ", "zh"), ("რ", "r"), ("ს", "s"),
   ("ტ", "t"), ("უ", "u"), ("ფ", "p"), ("ქ", "k"), ("ღ", "gh"), ("ყ", "q"),
   ("შ", "sh"), ("ჩ", "ch"), ("ც", "ts"), ("ძ", "dz"), ("წ", "ts"),
   ("ჭ", "ch"), ("ხ", "kh"), ("ჯ", "j"), ("ჰ", "h")]

end ka_en_ic

/-- Model of Python `str.title()`: each cased character whose predecessor
is not cased is titlecased, every other cased character is lowercased;
uncased characters pass through and reset nothing. -/
def pyTitleAux : Bool → List Char → List Char
  | _, [] => []
  | prevCased, c :: cs =>
    (if pyIsCased c then (if prevCased then pyToLowerChar c else pyToTitleChar c) else c)
      :: pyTitleAux (pyIsCased c) cs

/-- Python `str.title()` on a whole string. -/
def pyTitle (s : String) : String :=
  String.mk (pyTitleAux false s.data)

namespace ka_en_ic

/-- `ka_en_ic.transliterate`: apply the character map, then `str.title()`. -/
def transliterate (src_text : String) : String :=
  pyTitle (apply_replacements src_text char_map)

end ka_en_ic

namespace ru_cyr_en_gost_7_79_2000_system_b

/-- `char_map` of `ru_cyr_en_gost_7_79_2000_system_b.py` (note: ц and Ц are
deliberately absent; they are handled by the regex rules). -/
def char_map : List (String × String) :=
  [("а", "a"), ("б", "b"), ("в", "v"), ("г", "g"), ("д", "d"), ("е", "e"),
   ("ё", "yo"), ("ж", "zh"), ("з", "z"), ("и", "i"), ("й", "j"), ("к", "k"),
   ("л", "l"), ("м", "m"), ("н", "n"), ("о", "o"), ("п", "p"), ("р", "r"),
   ("с", "s"), ("т", "t"), ("у", "u"), ("ф", "f"), ("х", "x"), ("ч", "ch"),
   ("ш", "sh"), ("щ", "shh"), ("ъ", "``"), ("ы", "y`"), ("ь", "`"),
   ("э", "e`"), ("ю", "yu"), ("я", "ya"),
   ("А", "A"), ("Б", "B"), ("В", "V"), ("Г", "G"), ("Д", "D"), ("Е", "E"),
   ("Ё", "Yo"), ("Ж", "Zh"), ("З", "Z"), ("И", "I"), ("Й", "J"), ("К", "K"),
   ("Л", "L"), ("М", "M"), ("Н", "N"), ("О", "O"), ("П", "P"), ("Р", "R"),
   ("С", "S"), ("Т", "T"), ("У", "U"), ("Ф", "F"), ("Х", "X"), ("Ч", "Ch"),
   ("Ш", "Sh"), ("Щ", "Shh"), ("Ъ", "``"), ("Ы", "Y`"), ("Ь", "`"),
   ("Э", "E`"), ("Ю", "Yu"), ("Я", "Ya")]

/-- `regex_patterns` of the GOST 7.79-2000 System B module, in order:
`ц([ieyjIEYJ])` → `c\1`, `Ц([ieyjIEYJ])` → `C\1`, `ц` → `cz`, `Ц` → `Cz`. -/
def regex_patterns : List RegexRule :=
  [.charThenClass 'ц' "c" ['i', 'e', 'y', 'j', 'I', 'E', 'Y', 'J'],
   .charThenClass 'Ц' "C" ['i', 'e', 'y', 'j', 'I', 'E', 'Y', 'J'],
   .lit "ц" "cz",
   .lit "Ц" "Cz"]

/-- `transliterate`: character map first, then the regex rules. -/
def transliterate (src_text : String) : String :=
  apply_regex_replacements (apply_replacements src_text char_map) regex_patterns

end ru_cyr_en_gost_7_79_2000_system_b

namespace uk_cyr_en_nat_standard

/-- `regex_patterns` of `uk_cyr_en_nat_standard.py`, in order: the literal
`зг` combinations, then the word-beginning (`\b`) special cases. -/
def regex_patterns : List RegexRule :=
  [.lit "Зг" "Zgh", .lit "зг" "zgh", .lit "ЗГ" "ZGH", .lit "зГ" "zGh",
   .boundaryThen "Є" "Ye", .boundaryThen "є" "ye",
   .boundaryThen "Ю" "Yu", .boundaryThen "ю" "yu",
   .boundaryThen "Я" "Ya", .boundaryThen "я" "ya",
   .boundaryThen "Ї" "Yi", .boundaryThen "ї" "yi",
   .boundaryThen "Й" "Y", .boundaryThen "й" "y"]

/-- `char_map` of `uk_cyr_en_nat_standard.py`, in declaration order; the
soft sign and both apostrophes map to the empty string (silent drop). -/
def char_map : List (String × String) :=
  [("А", "A"), ("а", "a"), ("Б", "B"), ("б", "b"), ("В", "V"), ("в", "v"),
   ("Г", "H"), ("г", "h"), ("Ґ", "G"), ("ґ", "g"), ("Д", "D"), ("д", "d"),
   ("Е", "E"), ("е", "e"), ("Є", "Ie"), ("є", "ie"), ("Ж", "Zh"), ("ж", "zh"),
   ("З", "Z"), ("з", "z"), ("И", "Y"), ("и", "y"), ("І", "I"), ("і", "i"),
   ("Ї", "I"), ("ї", "i"), ("Й", "I"), ("й", "i"), ("К", "K"), ("к", "k"),
   ("Л", "L"), ("л", "l"), ("М", "M"), ("м", "m"), ("Н", "N"), ("н", "n"),
   ("О", "O"), ("о", "o"), ("П", "P"), ("п", "p"), ("Р", "R"), ("р", "r"),
   ("С", "S"), ("с", "s"), ("Т", "T"), ("т", "t"), ("У", "U"), ("у", "u"),
   ("Ф", "F"), ("ф", "f"), ("Х", "Kh"), ("х", "kh"), ("Ц", "Ts"), ("ц", "ts"),
   ("Ч", "Ch"), ("ч", "ch"), ("Ш", "Sh"), ("ш", "sh"), ("Щ", "Shch"),
   ("щ", "shch"), ("Ь", ""), ("ь", ""), ("Ю", "Iu"), ("ю", "iu"),
   ("Я", "Ia"), ("я", "ia"), (aposS, ""), ("’", "")]

/-- `transliterate`: regex rules first, then the character map. -/
def transliterate (src_text : String) : String :=
  apply_replacements (apply_regex_replacements src_text regex_patterns) char_map

end uk_cyr_en_nat_standard

namespace ru_cyr_en_bgn

/-- The consonant class of the BGN context rules. -/
def consonants : List Char :=
  ['б', 'в', 'г', 'д', 'ж', 'з', 'к', 'л', 'м', 'н', 'п', 'р', 'с', 'т',
   'ф', 'х', 'ц', 'ч', 'ш', 'щ',
   'Б', 'В', 'Г', 'Д', 'Ж', 'З', 'К', 'Л', 'М', 'Н', 'П', 'Р', 'С', 'Т',
   'Ф', 'Х', 'Ц', 'Ч', 'Ш', 'Щ']

/-- `regex_patterns` of `ru_cyr_en_bgn.py`: `([consonant])е` → `\1e` and
the three analogous rules for Е, ё, Ё. -/
def regex_patterns : List RegexRule :=
  [.classThenChar consonants 'е' "e",
   .classThenChar consonants 'Е' "E",
   .classThenChar consonants 'ё' "ë",
   .classThenChar consonants 'Ё' "Ë"]

/-- `char_map` of `ru_cyr_en_bgn.py`, in declaration order. -/
def char_map : List (String × String) :=
  [("а", "a"), ("б", "b"), ("в", "v"), ("г", "g"), ("д", "d"), ("е", "ye"),
   ("ё", "yë"), ("ж", "zh"), ("з", "z"), ("и", "i"), ("й", "y"), ("к", "k"),
   ("л", "l"), ("м", "m"), ("н", "n"), ("о", "o"), ("п", "p"), ("р", "r"),
   ("с", "s"), ("т", "t"), ("у", "u"), ("ф", "f"), ("х", "kh"), ("ц", "ts"),
   ("ч", "ch"), ("ш", "sh"), ("щ", "shch"), ("ъ", "”"), ("ы", "y"),
   ("ь", "’"), ("э", "e"), ("ю", "yu"), ("я", "ya"),
   ("А", "A"), ("Б", "B"), ("В", "V"), ("Г", "G"), ("Д", "D"), ("Е", "Ye"),
   ("Ё", "Yë"), ("Ж", "Zh"), ("З", "Z"), ("И", "I"), ("Й", "Y"), ("К", "K"),
   ("Л", "L"), ("М", "M"), ("Н", "N"), ("О", "O"), ("П", "P"), ("Р", "R"),
   ("С", "S"), ("Т", "T"), ("У", "U"), ("Ф", "F"), ("Х", "Kh"), ("Ц", "Ts"),
   ("Ч", "Ch"), ("Ш", "Sh"), ("Щ", "Shch"), ("Ъ", "”"), ("Ы", "Y"),
   ("Ь", "’"), ("Э", "E"), ("Ю", "Yu"), ("Я", "Ya")]

/-- `transliterate`: regex rules first, then the character map. -/
def transliterate (src_text : String) : String :=
  apply_replacements (apply_regex_replacements src_text regex_patterns) char_map

end ru_cyr_en_bgn

/-- The Georgian method as a `TranslitMethod`. -/
def kaMethod : TranslitMethod := ⟨ka_en_ic.transliterate⟩

/-- The GOST 7.79-2000 System B method as a `TranslitMethod`. -/
def gostMethod : TranslitMethod := ⟨ru_cyr_en_gost_7_79_2000_system_b.transliterate⟩

/-- The Ukrainian National Standard method as a `TranslitMethod`. -/
def ukNatMethod : TranslitMethod := ⟨uk_cyr_en_nat_standard.transliterate⟩

/-- The Russian BGN method as a `TranslitMethod`. -/
def bgnMethod : TranslitMethod := ⟨ru_cyr_en_bgn.transliterate⟩

/-! ## Case-match engine (`utils.py`) -/

/-- Model of Python `str.isupper()`: at least one cased character, and
every cased character is uppercase. -/
def pyIsUpper (s : String) : Bool :=
  s.data.any pyIsCased && s.data.all (fun c => !pyIsCased c || pyIsUpperChar c)

/-- Model of Python `str.upper()` (character-wise on the alphabets in play). -/
def pyStrUpper (s : String) : String :=
  String.mk (s.data.map pyToUpperChar)

/-- `utils.translit_word_cm`: transliterate a word, uppercasing the whole
result when the source word satisfies `str.isupper()`. -/
def translit_word_cm (word : String) (translit_method : TranslitMethod) : String :=
  if pyIsUpper word then pyStrUpper (translit_method.transliterate word)
  else translit_method.transliterate word

/-- The splitter behind `re.compile(chr(40) ++ backslash-W-plus ++ chr(41)).split`:
walk the text keeping the current run (reversed) and whether it is a
separator run; emits the Python result list, word runs and separator runs
alternating, beginning and ending with a (possibly empty) word run. -/
def goSplit : List Char → List Char → Bool → List (List Char)
  | [], cur, inSep => if inSep then [cur.reverse, []] else [cur.reverse]
  | c :: rest, cur, inSep =>
    if inSep then
      if isWordChar c then cur.reverse :: goSplit rest [c] false
      else goSplit rest (c :: cur) true
    else
      if isWordChar c then goSplit rest (c :: cur) false
      else cur.reverse :: goSplit rest [c] true

/-- `WORD_SPLIT_PATTERN.split`, as the model's list of tokens. -/
def pySplitWords (s : String) : List String :=
  (goSplit s.data [] false).map String.mk

/-- `utils.transliterate_case_match`: split into tokens on the
word/non-word pattern and join the per-token results of
`translit_word_cm` (every token, separator tokens included, goes through
`translit_word_cm`). -/
def transliterate_case_match (src_text : String) (translit_method : TranslitMethod) : String :=
  strConcat ((pySplitWords src_text).map (fun w => translit_word_cm w translit_method))

/-! ## Method registry (`src/method_registry.py`) -/

/-- The one-character string holding an ASCII apostrophe, wrapped for
building the quoted fragments of the registry error messages. -/
def quoted (s : String) : String := aposS ++ s ++ aposS

/-- The hardcoded `no_case_methods` set of
`MethodRegistry._identify_no_case_methods`. -/
def no_case_methods : List String :=
  ["Georgian (Cyrillic)-->English (IC)",
   "Russian (Chinese Cyrillic)-->English (Pinyin)",
   "Russian (Japanese Cyrillic)-->English (Hepburn)",
   "Russian (Cyrillic)-->English (ISO-9)",
   "Ukrainian (Chinese Academic)-->English"]

/-- `_identify_no_case_methods`: the hardcoded set intersected with the
discovered method names. -/
def noCaseMatchOf (methods : List String) : List String :=
  no_case_methods.filter (fun m => decide (m ∈ methods))

/-- `MethodRegistry.should_enable_case_match`: membership test against the
registry's `_no_case_match` set. -/
def should_enable_case_match (methods : List String) (method_name : String) : Bool :=
  decide (method_name ∉ noCaseMatchOf methods)

/-- The registry state over which `_validate_registry` runs: discovered
method names, the language groups, display names and the no-case-match
set. -/
structure RegistryState where
  methods : List String
  language_groups : List (String × List String)
  display_names : List (String × String)
  no_case_match : List String

/-- The `errors` list built by `MethodRegistry._validate_registry`, in
the code's order: missing display names, then language-group members not
in the method set, then no-case-match entries not in the method set. -/
def collectErrors (r : RegistryState) : List String :=
  ((r.methods.filter (fun m => decide (m ∉ r.display_names.map Prod.fst))).map
      (fun m => "Missing display name for method: " ++ m))
  ++ (r.language_groups.flatMap (fun lg =>
      (lg.2.filter (fun m => decide (m ∉ r.methods))).map
        (fun m => "Method " ++ quoted m ++ " in language " ++ quoted lg.1
          ++ " not found in methods")))
  ++ ((r.no_case_match.filter (fun m => decide (m ∉ r.methods))).map
      (fun m => "No-case-match method " ++ quoted m ++ " not found in methods"))

/-- The aggregated `ValueError` message of `_validate_registry`. -/
def registryErrorMsg (errors : List String) : String :=
  "Method registry validation failed:\n" ++ pyJoin "\n" (errors.map (fun e => "  - " ++ e))

/-- `_validate_registry`: raise with the aggregated message when any
violation was collected, succeed otherwise. -/
def validateRegistry (r : RegistryState) : Except String Unit :=
  let errors := collectErrors r
  if errors = [] then .ok () else .error (registryErrorMsg errors)

/-- Registry construction as observed by callers: the constructor runs the
validation pass last, so a registry value exists only when validation
passed. -/
def mkValidatedRegistry (r : RegistryState) : Except String RegistryState :=
  (validateRegistry r).map (fun _ => r)

/-! ## Input validator and model (`src/input_validator.py`, `src/model.py`) -/

/-- `InputValidator.validate_method_name`: `(is_valid, errors)`. -/
def validate_method_name (validMethods : List String) (method_name : String) :
    Bool × List String :=
  if method_name = "" ∨ pyStrip method_name = "" then
    (false, ["Please select a transliteration method"])
  else if method_name = "Select method" then
    (false, ["Please select a valid transliteration method"])
  else if method_name ∉ validMethods then
    (false, ["Invalid transliteration method: " ++ method_name])
  else (true, [])

/-- `InputValidator.validate_text_length`: `(is_valid, errors)`.  The
`{:,}`-formatted limits appear literally in the messages. -/
def validate_text_length (text : String) : Bool × List String :=
  if text = "" ∨ (pyStrip text).data.length < 1 then
    (false, ["Text must contain at least 1 character"])
  else
    let lines := splitOnNl text.data
    let longLines : List Nat := ((lines.enum.filter (fun p => 10000 < p.2.length)).map
      (fun p => p.1 + 1))
    let errors :=
      (if 250000 < text.data.length then
        ["Text exceeds maximum length of 250,000 characters"] else [])
      ++ (if 5000 < lines.length then
        ["Text exceeds maximum of 5,000 lines"] else [])
      ++ (if longLines = [] then []
        else if longLines.length ≤ 3 then
          ["Lines " ++ pyJoin ", " (longLines.map toString)
            ++ " exceed maximum length of 10,000 characters"]
        else [toString longLines.length
            ++ " lines exceed maximum length of 10,000 characters"])
    (errors = [], errors)

/-- `InputValidator.validate_and_sanitize_input`, returning
`(is_valid, sanitized_text, errors, warnings)`.  The Unicode
normalization / dangerous-pattern removal of `sanitize_text` and the
pattern scan of `detect_dangerous_content` are host-library (`unicodedata`
and `re`) behaviour, passed in as the functions `san` and `detect`; the
validator's own decision logic is embedded from the source (the float
threshold `len < original * 0.95` is modelled by the rational comparison
`len * 20 < original * 19`). -/
def validate_and_sanitize_input (san : String → String) (detect : String → List String)
    (validMethods : List String) (text : String) (method_name : String)
    (sanitize : Bool) : Bool × String × List String × List String :=
  let mv := validate_method_name validMethods method_name
  let sanitized := if sanitize then san text else text
  let sanWarnings :=
    if sanitize ∧ sanitized.data.length * 20 < text.data.length * 19 then
      ["Text was modified during sanitization (potentially unsafe content removed)"]
    else []
  let lv := validate_text_length sanitized
  let errors := mv.2 ++ (if lv.1 then [] else lv.2)
  let dangerous := detect sanitized
  let warnings := sanWarnings ++
    (if dangerous = [] then []
     else ["Potentially unsafe content detected: " ++ pyJoin ", " dangerous])
  (mv.1 && lv.1, sanitized, errors, warnings)

/-- `XlitToolModel.transliterate`, returning
`(success, result, error_message, warnings)`.  The registry's method table
is the association list `methods`; the validator's `VALID_METHODS` is its
set of names, as in the source where both come from the same registry. -/
def model_transliterate (methods : List (String × TranslitMethod))
    (san : String → String) (detect : String → List String)
    (method_name : String) (text : String) (match_case : Bool) (sanitize_input : Bool) :
    Bool × String × String × List String :=
  let vr := validate_and_sanitize_input san detect (methods.map Prod.fst)
    text method_name sanitize_input
  if vr.1 = false then
    (false, "", pyJoin "\n" vr.2.2.1, vr.2.2.2)
  else
    match methods.find? (fun p => p.1 == method_name) with
    | none =>
      (false, "", "Transliteration method " ++ quoted method_name ++ " not found",
        vr.2.2.2)
    | some p =>
      (true,
       (if match_case then transliterate_case_match vr.2.1 p.2
        else p.2.transliterate vr.2.1),
       "", vr.2.2.2)

/-! ## Helper lemmas -/

theorem strData_append (a b : String) : (a ++ b).data = a.data ++ b.data := rfl

theorem strMk_data (s : String) : String.mk s.data = s := by
  cases s
  rfl

theorem str_append_empty (s : String) : s ++ "" = s := by
  cases s with
  | mk l =>
    show String.mk (l ++ []) = String.mk l
    rw [List.append_nil]

theorem infix_append_left {α : Type} {x t : List α} (s : List α) (h : x <:+: t) :
    x <:+: s ++ t := by
  rcases h with ⟨u, v, huv⟩
  exact ⟨s ++ u, v, by simp [← huv]⟩

theorem infixOfSuffix {α : Type} {x t : List α} (h : x <:+ t) : x <:+: t := by
  rcases h with ⟨u, hu⟩
  exact ⟨u, [], by simp [hu]⟩

theorem infixOfPref {α : Type} {x t : List α} (h : x <+: t) : x <:+: t := by
  rcases h with ⟨u, hu⟩
  exact ⟨[], u, by simp [hu]⟩

theorem infix_append_right {α : Type} {x s : List α} (t : List α) (h : x <:+: s) :
    x <:+: s ++ t := by
  rcases h with ⟨u, v, huv⟩
  exact ⟨u, v ++ t, by simp [← huv]⟩

/-- The head of a joined list is a prefix of the join. -/
theorem pyJoin_head_pref (sep a : String) (l : List String) :
    a.data <+: (pyJoin sep (a :: l)).data := by
  cases l with
  | nil => simp [pyJoin]
  | cons b t =>
    simp only [pyJoin, strData_append, List.append_assoc]
    exact List.prefix_append _ _

/-- Every member of a joined list is an infix of the join. -/
theorem pyJoin_mem_infix (sep : String) {a : String} {l : List String} (h : a ∈ l) :
    a.data <:+: (pyJoin sep l).data := by
  induction l with
  | nil => cases h
  | cons b t ih =>
    rcases List.mem_cons.mp h with rfl | hmem
    · exact infixOfPref (pyJoin_head_pref sep a t)
    · cases t with
      | nil => cases hmem
      | cons c u =>
        have := ih hmem
        simp only [pyJoin, strData_append, List.append_assoc]
        exact infix_append_left _ (infix_append_left _ this)

/-- A key that matches as a prefix starts with the first character of the
text. -/
theorem head_of_isPrefixOf {k : List Char} {c : Char} {cs : List Char}
    (hne : k ≠ []) (h : k.isPrefixOf (c :: cs) = true) : k.head hne = c := by
  cases k with
  | nil => exact absurd rfl hne
  | cons d ds =>
    have : (d :: ds) <+: (c :: cs) := List.isPrefixOf_iff_prefix.mp h
    rcases List.cons_prefix_cons.mp this with ⟨rfl, -⟩
    rfl

/-- If no character of the text occurs in any key, no key matches anywhere. -/
theorem tryKeysAt_eq_none {m : List (String × String)} {cs : List Char}
    (h : ∀ kv ∈ m, ∀ hne : kv.1.data ≠ [], kv.1.data.head hne ∉ cs) :
    tryKeysAt m cs = none := by
  induction m with
  | nil => rfl
  | cons kv rest ih =>
    have hcond : ¬(kv.1.data ≠ [] ∧ kv.1.data.isPrefixOf cs = true) := by
      rintro ⟨hne, hpre⟩
      cases cs with
      | nil =>
        cases hk : kv.1.data with
        | nil => exact hne hk
        | cons d ds => rw [hk] at hpre; simp [List.isPrefixOf] at hpre
      | cons c cs2 =>
        have := head_of_isPrefixOf hne hpre
        exact h kv (List.mem_cons_self kv rest) hne (this ▸ List.mem_cons_self c cs2)
    simp only [tryKeysAt]
    rw [if_neg hcond]
    exact ih (fun kv2 hm => h kv2 (List.mem_cons_of_mem kv hm))

theorem reSearch_eq_none {m : List (String × String)} {cs : List Char}
    (h : ∀ c ∈ cs, ∀ kv ∈ m, c ∉ kv.1.data) :
    reSearch m cs = none := by
  induction cs with
  | nil => rfl
  | cons c cs2 ih =>
    have hnone : tryKeysAt m (c :: cs2) = none := by
      apply tryKeysAt_eq_none
      intro kv hm hne hmem
      rcases List.mem_cons.mp hmem with heq | hmem2
      · exact h c (List.mem_cons_self c cs2) kv hm (heq ▸ List.head_mem hne)
      · exact h _ (List.mem_cons_of_mem c hmem2) kv hm (List.head_mem hne)
    simp only [reSearch, hnone]
    rw [ih (fun c2 hc2 => h c2 (List.mem_cons_of_mem c hc2))]
    rfl

theorem applyReplF_id {m : List (String × String)} {cs : List Char}
    (h : reSearch m cs = none) : ∀ fuel, applyReplF m fuel cs = cs := by
  intro fuel
  cases fuel with
  | zero => rfl
  | succ n => simp [applyReplF, h]

/-- Text left of the match has no match at any of its positions, so the
remaining text is shorter than the input. -/
theorem reSearch_some_shorter {m : List (String × String)} :
    ∀ {cs pre kv rest}, reSearch m cs = some (pre, kv, rest) →
      rest.length < cs.length := by
  intro cs
  induction cs with
  | nil => intro pre kv rest h; simp [reSearch] at h
  | cons c cs2 ih =>
    intro pre kv rest h
    simp only [reSearch] at h
    cases htry : tryKeysAt m (c :: cs2) with
    | some kv2 =>
      rw [htry] at h
      simp only [Option.some.injEq, Prod.mk.injEq] at h
      rcases h with ⟨-, -, hrest⟩
      have : rest.length ≤ cs2.length := by
        rw [← hrest]; simp [List.length_drop]
      simp only [List.length_cons]
      omega
    | none =>
      rw [htry] at h
      cases hre : reSearch m cs2 with
      | none => rw [hre] at h; simp at h
      | some pr =>
        rw [hre] at h
        simp only [Option.map_some, Option.some.injEq, Prod.mk.injEq] at h
        rcases h with ⟨-, -, hrest⟩
        have := ih (show reSearch m cs2 = some (pr.1, pr.2.1, pr.2.2) by rw [hre])
        simp only [List.length_cons]
        omega

/-- The fuelled substitution loop is fuel-irrelevant once the fuel covers
the text length. -/
theorem applyReplF_fuel (m : List (String × String)) :
    ∀ fuel k cs, cs.length ≤ fuel → cs.length ≤ k →
      applyReplF m fuel cs = applyReplF m k cs := by
  intro fuel
  induction fuel with
  | zero =>
    intro k cs hf hk
    have : cs = [] := List.length_eq_zero.mp (Nat.le_zero.mp hf)
    subst this
    cases k with
    | zero => rfl
    | succ j => simp [applyReplF, reSearch]
  | succ n ih =>
    intro k cs hf hk
    cases hre : reSearch m cs with
    | none =>
      rw [applyReplF, hre]
      cases k with
      | zero => rfl
      | succ j => rw [applyReplF, hre]
    | some pr =>
      obtain ⟨pre, kv, rest⟩ := pr
      have hlt := reSearch_some_shorter hre
      have hcs : cs ≠ [] := by
        intro hnil; rw [hnil] at hre; simp [reSearch] at hre
      cases k with
      | zero =>
        exfalso
        have := List.length_pos.mpr hcs
        omega
      | succ j =>
        have h1 : rest.length ≤ n := by omega
        have h2 : rest.length ≤ j := by omega
        simp only [applyReplF, hre]
        rw [ih j rest h1 h2]

/-- Inversion for a failed search: no key matches at the first position
and the search of the remainder fails too. -/
theorem reSearch_none_inv {m : List (String × String)} {c : Char} {cs : List Char}
    (h : reSearch m (c :: cs) = none) :
    tryKeysAt m (c :: cs) = none ∧ reSearch m cs = none := by
  simp only [reSearch] at h
  cases htry : tryKeysAt m (c :: cs) with
  | some kv => rw [htry] at h; simp at h
  | none =>
    rw [htry] at h
    cases hre : reSearch m cs with
    | none => exact ⟨rfl, rfl⟩
    | some pr => rw [hre] at h; simp at h

/-- When no key matches anywhere, the per-position scan copies the text. -/
theorem specScanF_id {m : List (String × String)} :
    ∀ {cs : List Char}, reSearch m cs = none → ∀ fuel, specScanF m fuel cs = cs := by
  intro cs
  induction cs with
  | nil =>
    intro _ fuel
    cases fuel with
    | zero => rfl
    | succ n => rfl
  | cons c cs2 ih =>
    intro h fuel
    rcases reSearch_none_inv h with ⟨htry, hre⟩
    cases fuel with
    | zero => rfl
    | succ n =>
      simp only [specScanF, htry]
      rw [ih hre n]

/-- One-step unfolding of the substitution loop on a successful search. -/
theorem applyReplF_succ_some {m : List (String × String)} {cs pre rest : List Char}
    {kv : String × String} (fuel : Nat) (h : reSearch m cs = some (pre, kv, rest)) :
    applyReplF m (fuel + 1) cs = pre ++ kv.2.data ++ applyReplF m fuel rest := by
  simp only [applyReplF, h]

/-- One-step unfolding of the spec scan on a successful key test. -/
theorem specScanF_succ_some {m : List (String × String)} {c : Char} {cs : List Char}
    {kv : String × String} (fuel : Nat) (h : tryKeysAt m (c :: cs) = some kv) :
    specScanF m (fuel + 1) (c :: cs)
      = kv.2.data ++ specScanF m fuel (cs.drop (kv.1.data.length - 1)) := by
  simp only [specScanF, h]

/-- One-step unfolding of the spec scan on a failed key test. -/
theorem specScanF_succ_none {m : List (String × String)} {c : Char} {cs : List Char}
    (fuel : Nat) (h : tryKeysAt m (c :: cs) = none) :
    specScanF m (fuel + 1) (c :: cs) = c :: specScanF m fuel cs := by
  simp only [specScanF, h]

/-- The source model of the alternation substitution computes the scan the
specification describes. -/
theorem applyReplF_eq_specScanF (m : List (String × String)) :
    ∀ fuel cs, cs.length ≤ fuel → applyReplF m fuel cs = specScanF m fuel cs := by
  intro fuel
  induction fuel with
  | zero =>
    intro cs hf
    have : cs = [] := List.length_eq_zero.mp (Nat.le_zero.mp hf)
    subst this
    rfl
  | succ n ih =>
    intro cs hf
    cases cs with
    | nil => simp [applyReplF, reSearch, specScanF]
    | cons c cs2 =>
      simp only [List.length_cons] at hf
      have hlen : cs2.length ≤ n := by omega
      cases htry : tryKeysAt m (c :: cs2) with
      | some kv =>
        have hre : reSearch m (c :: cs2) = some ([], kv, cs2.drop (kv.1.data.length - 1)) := by
          simp only [reSearch, htry]
        rw [applyReplF_succ_some n hre, specScanF_succ_some n htry,
          ih _ (by simp only [List.length_drop]; omega)]
        simp
      | none =>
        cases hre2 : reSearch m cs2 with
        | none =>
          have hre : reSearch m (c :: cs2) = none := by
            simp only [reSearch, htry, hre2]
            rfl
          rw [applyReplF_id hre, specScanF_id hre]
        | some pr =>
          obtain ⟨pre, kv, rest⟩ := pr
          have hre : reSearch m (c :: cs2) = some (c :: pre, kv, rest) := by
            simp only [reSearch, htry, hre2]
            rfl
          have hlt : rest.length < cs2.length := reSearch_some_shorter hre2
          obtain ⟨g, hg⟩ : ∃ g, n = g + 1 := ⟨n - 1, by omega⟩
          subst hg
          rw [applyReplF_succ_some (g + 1) hre, specScanF_succ_none (g + 1) htry,
            ← ih cs2 hlen, applyReplF_succ_some g hre2,
            applyReplF_fuel m (g + 1) g rest (by omega) (by omega)]
          simp [List.append_assoc]

/-- No character of the text occurs among a rule's trigger characters, so
the rule matches nowhere. -/
theorem ruleMatch_eq_none {r : RegexRule} {c : Char} {cs : List Char} (prev : Option Char)
    (h : ∀ d ∈ c :: cs, d ∉ ruleChars r) :
    ruleMatch r prev (c :: cs) = none := by
  cases r with
  | lit key val =>
    simp only [ruleMatch, ite_eq_right_iff]
    rintro ⟨hne, hpre⟩
    exfalso
    have hd := head_of_isPrefixOf hne hpre
    exact h c (List.mem_cons_self c cs) (by simp only [ruleChars]; exact hd ▸ List.head_mem hne)
  | charThenClass first repl cls =>
    cases cs with
    | nil => rfl
    | cons b t =>
      simp only [ruleMatch, ite_eq_right_iff]
      rintro ⟨rfl, -⟩
      exact absurd (List.mem_singleton.mpr rfl) (h c (List.mem_cons_self c (b :: t)))
  | classThenChar cls second repl =>
    cases cs with
    | nil => rfl
    | cons b t =>
      simp only [ruleMatch, ite_eq_right_iff]
      rintro ⟨-, rfl⟩
      exact absurd (List.mem_singleton.mpr rfl)
        (h b (List.mem_cons_of_mem c (List.mem_cons_self b t)))
  | boundaryThen key val =>
    simp only [ruleMatch, ite_eq_right_iff]
    rintro ⟨-, hne, hpre⟩
    exfalso
    have hd := head_of_isPrefixOf hne hpre
    exact h c (List.mem_cons_self c cs) (by simp only [ruleChars]; exact hd ▸ List.head_mem hne)

/-- A rule with no trigger character in the text leaves the text unchanged. -/
theorem applySubF_id (r : RegexRule) :
    ∀ fuel prev {cs : List Char}, (∀ d ∈ cs, d ∉ ruleChars r) →
      applySubF r fuel prev cs = cs := by
  intro fuel
  induction fuel with
  | zero => intro prev cs _; rfl
  | succ n ih =>
    intro prev cs h
    cases cs with
    | nil => rfl
    | cons c cs2 =>
      have hnone := ruleMatch_eq_none prev h
      simp only [applySubF, hnone]
      rw [ih (some c) (fun d hd => h d (List.mem_cons_of_mem c hd))]

/-- `apply_replacements` is the identity when no character of the text
occurs in any key of the map. -/
theorem apply_replacements_id {s : String} {m : List (String × String)}
    (h : ∀ c ∈ s.data, ∀ kv ∈ m, c ∉ kv.1.data) :
    apply_replacements s m = s := by
  unfold apply_replacements
  rw [applyReplF_id (reSearch_eq_none h), strMk_data]

/-- `apply_regex_replacements` is the identity when no character of the
text occurs among the trigger characters of any rule. -/
theorem apply_regex_replacements_id {s : String} {rules : List RegexRule}
    (h : ∀ c ∈ s.data, ∀ r ∈ rules, c ∉ ruleChars r) :
    apply_regex_replacements s rules = s := by
  induction rules with
  | nil => rfl
  | cons r rest ih =>
    have h1 : applyRegexRule r s = s := by
      unfold applyRegexRule
      rw [applySubF_id r _ none (fun d hd => h d hd r (List.mem_cons_self r rest)), strMk_data]
    show apply_regex_replacements (applyRegexRule r s) rest = s
    rw [h1]
    exact ih (fun c hc r2 hr2 => h c hc r2 (List.mem_cons_of_mem r hr2))

/-- Consuming a run of word characters in word mode accumulates them. -/
theorem goSplit_word : ∀ (w : List Char), (∀ c ∈ w, isWordChar c = true) →
    ∀ (cur rest : List Char), goSplit (w ++ rest) cur false = goSplit rest (w.reverse ++ cur) false := by
  intro w
  induction w with
  | nil => intro _ cur rest; simp
  | cons c w2 ih =>
    intro h cur rest
    have hc : isWordChar c = true := h c (List.mem_cons_self c w2)
    show goSplit (c :: (w2 ++ rest)) cur false = _
    simp only [goSplit, if_false, hc, if_true]
    rw [ih (fun d hd => h d (List.mem_cons_of_mem c hd)) (c :: cur) rest]
    simp

/-- Consuming a run of non-word characters in separator mode accumulates
them. -/
theorem goSplit_sep : ∀ (w : List Char), (∀ c ∈ w, isWordChar c = false) →
    ∀ (cur rest : List Char), goSplit (w ++ rest) cur true = goSplit rest (w.reverse ++ cur) true := by
  intro w
  induction w with
  | nil => intro _ cur rest; simp
  | cons c w2 ih =>
    intro h cur rest
    have hc : isWordChar c = false := h c (List.mem_cons_self c w2)
    show goSplit (c :: (w2 ++ rest)) cur true = _
    simp only [goSplit, if_true, hc, Bool.false_eq_true, if_false]
    rw [ih (fun d hd => h d (List.mem_cons_of_mem c hd)) (c :: cur) rest]
    simp

/-- A string of word characters splits into a single token. -/
theorem pySplitWords_single {s : String} (h : ∀ c ∈ s.data, isWordChar c = true) :
    pySplitWords s = [s] := by
  unfold pySplitWords
  have := goSplit_word s.data h [] []
  rw [List.append_nil] at this
  rw [this]
  simp only [goSplit, List.append_nil, List.reverse_reverse]
  simp [strMk_data]

/-- A word, a separator run and a word split into exactly three tokens. -/
theorem pySplitWords_three {w1 sep w2 : String}
    (h1 : ∀ c ∈ w1.data, isWordChar c = true) (h2 : ∀ c ∈ w2.data, isWordChar c = true)
    (hs : ∀ c ∈ sep.data, isWordChar c = false)
    (hw2 : w2.data ≠ []) (hsep : sep.data ≠ []) :
    pySplitWords (w1 ++ sep ++ w2) = [w1, sep, w2] := by
  unfold pySplitWords
  have hdata : (w1 ++ sep ++ w2).data = w1.data ++ (sep.data ++ w2.data) := by
    rw [strData_append, strData_append, List.append_assoc]
  rw [hdata, goSplit_word w1.data h1 [] (sep.data ++ w2.data), List.append_nil]
  obtain ⟨s0, sep2, hseq⟩ : ∃ s0 sep2, sep.data = s0 :: sep2 := by
    cases hx : sep.data with
    | nil => exact absurd hx hsep
    | cons a b => exact ⟨a, b, rfl⟩
  obtain ⟨c0, w2tl, hw2eq⟩ : ∃ c0 w2tl, w2.data = c0 :: w2tl := by
    cases hx : w2.data with
    | nil => exact absurd hx hw2
    | cons a b => exact ⟨a, b, rfl⟩
  have hs0 : isWordChar s0 = false := hs s0 (by rw [hseq]; exact List.mem_cons_self s0 sep2)
  have hc0 : isWordChar c0 = true := h2 c0 (by rw [hw2eq]; exact List.mem_cons_self c0 w2tl)
  rw [hseq, hw2eq]
  rw [List.cons_append]
  simp only [goSplit, hs0, Bool.false_eq_true, if_false, List.reverse_reverse]
  have hsep2 : ∀ c ∈ sep2, isWordChar c = false := fun c hc =>
    hs c (by rw [hseq]; exact List.mem_cons_of_mem s0 hc)
  rw [goSplit_sep sep2 hsep2 [s0] (c0 :: w2tl)]
  simp only [goSplit, hc0, if_true]
  have hw2tl : ∀ c ∈ w2tl, isWordChar c = true := fun c hc =>
    h2 c (by rw [hw2eq]; exact List.mem_cons_of_mem c0 hc)
  have h3 : goSplit w2tl [c0] false = [c0 :: w2tl] := by
    have h4 := goSplit_word w2tl hw2tl [c0] []
    rw [List.append_nil] at h4
    rw [h4]
    simp [goSplit]
  rw [h3]
  have h5 : (sep2.reverse ++ [s0]).reverse = s0 :: sep2 := by simp
  rw [h5, ← hseq, ← hw2eq]
  simp [strMk_data]

/-- A string without cased characters fails `str.isupper()`. -/
theorem pyIsUpper_eq_false_of_noCased {s : String}
    (h : ∀ c ∈ s.data, pyIsCased c = false) : pyIsUpper s = false := by
  unfold pyIsUpper
  have : s.data.any pyIsCased = false := by
    rw [List.any_eq_false]
    intro c hc
    simp [h c hc]
  simp [this]

/-- A string containing no uppercase character fails `str.isupper()`. -/
theorem pyIsUpper_eq_false_of_noUpper {s : String}
    (h : ∀ c ∈ s.data, pyIsUpperChar c = false) : pyIsUpper s = false := by
  unfold pyIsUpper
  cases hany : s.data.any pyIsCased with
  | false => simp
  | true =>
    rcases List.any_eq_true.mp hany with ⟨c, hc, hcased⟩
    have : s.data.all (fun c => !pyIsCased c || pyIsUpperChar c) = false := by
      rw [List.all_eq_false]
      exact ⟨c, hc, by simp [hcased, h c hc]⟩
    simp [this]

/-- On a non-uppercase token the per-word transform is the bare method. -/
theorem translit_word_cm_of_not_upper {w : String} {m : TranslitMethod}
    (h : pyIsUpper w = false) : translit_word_cm w m = m.transliterate w := by
  simp [translit_word_cm, h]

namespace ru_cyr_en_gost_7_79_2000_system_b

/-- The GOST rule list with the generic `ц`/`Ц` rules moved before the
context-sensitive vowel rules (used to demonstrate order dependence). -/
def regex_patterns_swapped : List RegexRule :=
  [.lit "ц" "cz",
   .lit "Ц" "Cz",
   .charThenClass 'ц' "c" ['i', 'e', 'y', 'j', 'I', 'E', 'Y', 'J'],
   .charThenClass 'Ц' "C" ['i', 'e', 'y', 'j', 'I', 'E', 'Y', 'J']]

/-- The GOST method run with the swapped rule order. -/
def transliterate_swapped (src_text : String) : String :=
  apply_regex_replacements (apply_replacements src_text char_map) regex_patterns_swapped

end ru_cyr_en_gost_7_79_2000_system_b

/-! ## Claims -/

/-- Claim C1 (counterexample): every character of `"abc"` occurs in no key
of the Georgian character map (and the Georgian method has no regex
rules), yet `transliterate` returns `"Abc"`, not `"abc"`: the trailing
`str.title()` call capitalizes unmapped cased characters. -/
theorem C1_counterexample :
    ("abc".data.all (fun c => ka_en_ic.char_map.all (fun kv => !kv.1.data.contains c))) = true
    ∧ ka_en_ic.transliterate "abc" = "Abc"
    ∧ ("Abc" : String) ≠ "abc" :=
  ⟨by decide, by decide, by decide⟩

/-- Claim C1 (amended): for the BGN, GOST and Ukrainian National Standard
methods, a string whose characters occur in no character-map key and in no
trigger character of any regex rule is returned unchanged; for the
Georgian method such a string is returned title-cased (hence unchanged
exactly when titlecasing fixes it, e.g. for ASCII digits). -/
theorem C1_unmapped_passthrough (s : String) :
    ((∀ c ∈ s.data, (∀ kv ∈ ru_cyr_en_bgn.char_map, c ∉ kv.1.data) ∧
        (∀ r ∈ ru_cyr_en_bgn.regex_patterns, c ∉ ruleChars r)) →
      ru_cyr_en_bgn.transliterate s = s)
    ∧ ((∀ c ∈ s.data, (∀ kv ∈ ru_cyr_en_gost_7_79_2000_system_b.char_map, c ∉ kv.1.data) ∧
        (∀ r ∈ ru_cyr_en_gost_7_79_2000_system_b.regex_patterns, c ∉ ruleChars r)) →
      ru_cyr_en_gost_7_79_2000_system_b.transliterate s = s)
    ∧ ((∀ c ∈ s.data, (∀ kv ∈ uk_cyr_en_nat_standard.char_map, c ∉ kv.1.data) ∧
        (∀ r ∈ uk_cyr_en_nat_standard.regex_patterns, c ∉ ruleChars r)) →
      uk_cyr_en_nat_standard.transliterate s = s)
    ∧ ((∀ c ∈ s.data, ∀ kv ∈ ka_en_ic.char_map, c ∉ kv.1.data) →
      ka_en_ic.transliterate s = pyTitle s) := by
  refine ⟨?_, ?_, ?_, ?_⟩
  · intro h
    unfold ru_cyr_en_bgn.transliterate
    rw [apply_regex_replacements_id (fun c hc r hr => (h c hc).2 r hr),
      apply_replacements_id (fun c hc kv hkv => (h c hc).1 kv hkv)]
  · intro h
    unfold ru_cyr_en_gost_7_79_2000_system_b.transliterate
    rw [apply_replacements_id (fun c hc kv hkv => (h c hc).1 kv hkv),
      apply_regex_replacements_id (fun c hc r hr => (h c hc).2 r hr)]
  · intro h
    unfold uk_cyr_en_nat_standard.transliterate
    rw [apply_regex_replacements_id (fun c hc r hr => (h c hc).2 r hr),
      apply_replacements_id (fun c hc kv hkv => (h c hc).1 kv hkv)]
  · intro h
    unfold ka_en_ic.transliterate
    rw [apply_replacements_id h]

/-- Witness for C1: the digit string `"123"` satisfies the unmapped
hypotheses of all four methods and passes through unchanged. -/
theorem C1_witness :
    ru_cyr_en_bgn.transliterate "123" = "123"
    ∧ ru_cyr_en_gost_7_79_2000_system_b.transliterate "123" = "123"
    ∧ uk_cyr_en_nat_standard.transliterate "123" = "123"
    ∧ ka_en_ic.transliterate "123" = pyTitle "123"
    ∧ pyTitle "123" = "123" :=
  ⟨(C1_unmapped_passthrough "123").1 (by decide),
   (C1_unmapped_passthrough "123").2.1 (by decide),
   (C1_unmapped_passthrough "123").2.2.1 (by decide),
   (C1_unmapped_passthrough "123").2.2.2 (by decide),
   by decide⟩

/-- Claim C3 (counterexample): with an empty map, `apply_replacements`
returns the text unchanged (`Except.ok`), it does not raise an
`InvalidMap`-style error. -/
theorem C3_counterexample :
    apply_replacementsE "abc" [] = Except.ok "abc" := rfl

/-- Claim C3 (amended): for every text, `apply_replacements` with an empty
replacement map is a successful no-op returning the text unchanged. -/
theorem C3_empty_map_noop (s : String) :
    apply_replacementsE s [] = Except.ok s := rfl

/-- Claim C4: a token with at least one cased letter all of whose cased
letters are uppercase is transliterated and the whole result uppercased;
a token with no cased letters is transliterated with no case
post-processing. -/
theorem C4_translit_word_cm_case (m : TranslitMethod) (w : String) :
    ((∃ c ∈ w.data, pyIsCased c = true) ∧
        (∀ c ∈ w.data, pyIsCased c = true → pyIsUpperChar c = true) →
      translit_word_cm w m = pyStrUpper (m.transliterate w))
    ∧ ((∀ c ∈ w.data, pyIsCased c = false) →
      translit_word_cm w m = m.transliterate w) := by
  constructor
  · rintro ⟨⟨c, hc, hcased⟩, hall⟩
    have hup : pyIsUpper w = true := by
      unfold pyIsUpper
      rw [List.any_eq_true.mpr ⟨c, hc, hcased⟩, Bool.true_and, List.all_eq_true]
      intro d hd
      cases hcase : pyIsCased d with
      | false => simp
      | true => simp [hall d hd hcase]
    simp [translit_word_cm, hup]
  · intro h
    exact translit_word_cm_of_not_upper (pyIsUpper_eq_false_of_noCased h)

/-- Witness for C4: the all-uppercase Ukrainian token `АБ` is uppercased
after transliteration, and the digit token `123` is transliterated
verbatim. -/
theorem C4_witness :
    translit_word_cm "АБ" ukNatMethod = pyStrUpper (ukNatMethod.transliterate "АБ")
    ∧ translit_word_cm "123" ukNatMethod = ukNatMethod.transliterate "123" :=
  ⟨(C4_translit_word_cm_case ukNatMethod "АБ").1 (by decide),
   (C4_translit_word_cm_case ukNatMethod "123").2 (by decide)⟩

/-- Claim C5: on a non-empty single word of word characters none of which
is uppercase, case-match mode agrees with the bare method. -/
theorem C5_case_match_agreement (m : TranslitMethod) (w : String)
    (_hne : w.data ≠ [])
    (h : ∀ c ∈ w.data, isWordChar c = true ∧ pyIsUpperChar c = false) :
    transliterate_case_match w m = m.transliterate w := by
  unfold transliterate_case_match
  rw [pySplitWords_single (fun c hc => (h c hc).1)]
  show translit_word_cm w m ++ strConcat [] = _
  rw [show strConcat [] = "" from rfl, str_append_empty,
    translit_word_cm_of_not_upper (pyIsUpper_eq_false_of_noUpper (fun c hc => (h c hc).2))]

/-- Witness for C5: the lowercase Ukrainian word `аб` gives the same
result in both modes. -/
theorem C5_witness :
    transliterate_case_match "аб" ukNatMethod = ukNatMethod.transliterate "аб" :=
  C5_case_match_agreement ukNatMethod "аб" (by decide) (by decide)

/-- Claim C7: the rule pipeline is a strict left fold (each rule's output
is the next rule's input), and for the GOST 7.79-2000 System B rule list
the order is semantically significant: on `ци` the shipped order yields
`ci` while applying the generic `ц` rules first yields `czi`. -/
theorem C7_rule_order :
    (∀ (s : String) (r : RegexRule) (rs : List RegexRule),
      apply_regex_replacements s (r :: rs)
        = apply_regex_replacements (applyRegexRule r s) rs)
    ∧ ru_cyr_en_gost_7_79_2000_system_b.transliterate "ци" = "ci"
    ∧ ru_cyr_en_gost_7_79_2000_system_b.transliterate_swapped "ци" = "czi"
    ∧ ("ci" : String) ≠ "czi" :=
  ⟨fun _ _ _ => rfl, by decide, by decide, by decide⟩

/-- Claim C10: `should_enable_case_match` returns `true` for every name
outside the fixed hardcoded exclusion set, and in particular for every
name that is not a registered method at all. -/
theorem C10_case_match_unknown (methods : List String) (name : String) :
    (name ∉ no_case_methods → should_enable_case_match methods name = true)
    ∧ (name ∉ methods → should_enable_case_match methods name = true) := by
  constructor
  · intro h
    unfold should_enable_case_match noCaseMatchOf
    rw [decide_eq_true_eq]
    intro hmem
    exact h (List.mem_of_mem_filter hmem)
  · intro h
    unfold should_enable_case_match noCaseMatchOf
    rw [decide_eq_true_eq]
    intro hmem
    exact h (decide_eq_true_eq.mp (List.mem_filter.mp hmem).2)

/-- Witness for C10: an unregistered, misspelled name is reported as
supporting case matching. -/
theorem C10_witness :
    should_enable_case_match
      ["Georgian (Cyrillic)-->English (IC)",
       "Russian (Cyrillic)-->English (BGN)",
       "Russian (Cyrillic)-->English (Gost 7.79-2000b)",
       "Ukrainian (Cyrillic)-->English (National Standard)"]
      "Not A Method" = true :=
  (C10_case_match_unknown _ "Not A Method").1 (by decide)

/-- Claim C2 (counterexample): in case-match mode the Ukrainian National
Standard method deletes an apostrophe standing between two words: the
separator token is passed through the method's `transliterate`, whose map
drops apostrophes, so the output is `ab`, not `a` ++ apostrophe ++ `b`. -/
theorem C2_counterexample :
    transliterate_case_match ("а" ++ aposS ++ "б") ukNatMethod = "ab"
    ∧ ukNatMethod.transliterate aposS = ""
    ∧ ("ab" : String) ≠ "a" ++ aposS ++ "b" :=
  ⟨by decide, by decide, by decide⟩

/-- Claim C2 (amended): case-match mode splits on the word/non-word
boundary, but every token — separator tokens included — is passed through
`translit_word_cm` and hence through the underlying method's
`transliterate`; a separator token therefore appears unchanged only when
the method's `transliterate` leaves it unchanged. -/
theorem C2_separator_tokens_transliterated (m : TranslitMethod) (w1 sep w2 : String)
    (_hw1 : w1.data ≠ []) (hw2 : w2.data ≠ []) (hsep : sep.data ≠ [])
    (h1 : ∀ c ∈ w1.data, isWordChar c = true) (h2 : ∀ c ∈ w2.data, isWordChar c = true)
    (hs : ∀ c ∈ sep.data, isWordChar c = false) :
    transliterate_case_match (w1 ++ sep ++ w2) m
      = translit_word_cm w1 m ++ (m.transliterate sep ++ translit_word_cm w2 m) := by
  unfold transliterate_case_match
  rw [pySplitWords_three h1 h2 hs hw2 hsep]
  have hsepNoCased : ∀ c ∈ sep.data, pyIsCased c = false := by
    intro c hc
    cases hcase : pyIsCased c with
    | false => rfl
    | true =>
      exact absurd (isWordChar_of_pyIsCased hcase) (by simp [hs c hc])
  show translit_word_cm w1 m ++ (translit_word_cm sep m ++ (translit_word_cm w2 m ++ strConcat [])) = _
  rw [show strConcat [] = "" from rfl, str_append_empty,
    translit_word_cm_of_not_upper (pyIsUpper_eq_false_of_noCased hsepNoCased)]

/-- Witness for C2: the amended statement applied to the Ukrainian
National Standard method and the words `а`, `б` separated by an
apostrophe. -/
theorem C2_witness :
    transliterate_case_match ("а" ++ aposS ++ "б") ukNatMethod
      = translit_word_cm "а" ukNatMethod
        ++ (ukNatMethod.transliterate aposS ++ translit_word_cm "б" ukNatMethod) :=
  C2_separator_tokens_transliterated ukNatMethod "а" aposS "б"
    (by decide) (by decide) (by decide) (by decide) (by decide) (by decide)

/-- Claim C6: the character-map substitution equals the single
left-to-right scan described by the specification (keys tried in
declaration order at each position, first match replaced, output never
rescanned); consequently, when the first-declared key is a prefix of the
text at a position, it wins there regardless of longer keys declared
later, and the scan resumes after the matched key. -/
theorem C6_scan_semantics :
    (∀ (s : String) (m : List (String × String)),
      apply_replacements s m = specScanReplacements s m)
    ∧ (∀ (k v k2 t : String) (rest : List (String × String)),
      k.data ≠ [] → k.data.isPrefixOf k2.data = true →
      apply_replacements (k2 ++ t) ((k, v) :: rest)
        = v ++ apply_replacements (String.mk (((k2 ++ t).data).drop k.data.length)) ((k, v) :: rest)) := by
  constructor
  · intro s m
    unfold apply_replacements specScanReplacements
    rw [applyReplF_eq_specScanF m s.data.length s.data (Nat.le_refl _)]
  · intro k v k2 t rest hk hpre
    have hk2 : k2.data ≠ [] := by
      intro hnil
      rw [hnil] at hpre
      exact hk (List.prefix_nil.mp (List.isPrefixOf_iff_prefix.mp hpre))
    obtain ⟨c, cs2, hcs⟩ : ∃ c cs2, (k2 ++ t).data = c :: cs2 := by
      rw [strData_append]
      cases hx : k2.data with
      | nil => exact absurd hx hk2
      | cons a b => exact ⟨a, b ++ t.data, rfl⟩
    have hpre2 : k.data.isPrefixOf ((k2 ++ t).data) = true := by
      rw [strData_append]
      exact List.isPrefixOf_iff_prefix.mpr
        ((List.isPrefixOf_iff_prefix.mp hpre).trans (List.prefix_append _ _))
    have htry : tryKeysAt ((k, v) :: rest) ((k2 ++ t).data) = some (k, v) := by
      unfold tryKeysAt
      rw [if_pos ⟨hk, hpre2⟩]
    have hre : reSearch ((k, v) :: rest) ((k2 ++ t).data)
        = some ([], (k, v), cs2.drop (k.data.length - 1)) := by
      rw [hcs]
      rw [hcs] at htry
      simp only [reSearch, htry]
    obtain ⟨j, hj⟩ : ∃ j, k.data.length = j + 1 := ⟨k.data.length - 1, by
      have := List.length_pos.mpr hk
      omega⟩
    have hdrop : cs2.drop (k.data.length - 1) = ((k2 ++ t).data).drop k.data.length := by
      rw [hcs, hj]
      simp
    unfold apply_replacements
    obtain ⟨x, hx⟩ : ∃ x, ((k2 ++ t).data).length = x + 1 := ⟨cs2.length, by rw [hcs]; rfl⟩
    rw [hx, applyReplF_succ_some x hre, hdrop]
    have hlen : (((k2 ++ t).data).drop k.data.length).length ≤ x := by
      rw [List.length_drop]
      omega
    rw [applyReplF_fuel _ x (((k2 ++ t).data).drop k.data.length).length _ hlen (Nat.le_refl _)]
    rfl

/-- Witness for C6: with the map declaring `a` before `ab`, the scan on
`ab` replaces the earlier-declared prefix key `a` and yields `1b`, not
`2`. -/
theorem C6_witness :
    apply_replacements ("ab" ++ "") [("a", "1"), ("ab", "2")]
      = "1" ++ apply_replacements
          (String.mk ((("ab" ++ "" : String)).data.drop "a".data.length))
          [("a", "1"), ("ab", "2")]
    ∧ apply_replacements "ab" [("a", "1"), ("ab", "2")] = "1b" :=
  ⟨C6_scan_semantics.2 "a" "1" "ab" "" [("ab", "2")] (by decide) (by decide), by decide⟩

/-- Claim C8: whenever the validation pass collects at least one
violation, registry validation fails with a single message aggregating
every collected violation (each violation string occurs in the message),
and registry construction yields no registry value. -/
theorem C8_validation_aggregates (r : RegistryState) (h : collectErrors r ≠ []) :
    validateRegistry r = Except.error (registryErrorMsg (collectErrors r))
    ∧ mkValidatedRegistry r = Except.error (registryErrorMsg (collectErrors r))
    ∧ ∀ e ∈ collectErrors r, e.data <:+: (registryErrorMsg (collectErrors r)).data := by
  have h1 : validateRegistry r = Except.error (registryErrorMsg (collectErrors r)) := by
    unfold validateRegistry
    simp [h]
  refine ⟨h1, ?_, ?_⟩
  · unfold mkValidatedRegistry
    rw [h1]
    rfl
  · intro e he
    unfold registryErrorMsg
    rw [strData_append]
    refine infix_append_left _ ?_
    have hmem : ("  - " ++ e) ∈ (collectErrors r).map (fun e2 => "  - " ++ e2) :=
      List.mem_map_of_mem _ he
    have hinf := pyJoin_mem_infix "\n" hmem
    exact List.IsInfix.trans (infixOfSuffix ⟨"  - ".data, (strData_append "  - " e).symm⟩) hinf

/-- Sample registry state with three violations, used by the C8 witness. -/
def sampleBadRegistry : RegistryState :=
  ⟨["A"], [("L", ["B"])], [], ["C"]⟩

/-- Witness for C8: a registry with three violations fails validation and
its message contains both a missing-display-name violation and a
no-case-match violation. -/
theorem C8_witness :
    validateRegistry sampleBadRegistry
      = Except.error (registryErrorMsg (collectErrors sampleBadRegistry))
    ∧ ("Missing display name for method: A").data
        <:+: (registryErrorMsg (collectErrors sampleBadRegistry)).data
    ∧ ("No-case-match method " ++ quoted "C" ++ " not found in methods").data
        <:+: (registryErrorMsg (collectErrors sampleBadRegistry)).data :=
  ⟨(C8_validation_aggregates sampleBadRegistry (by decide)).1,
   (C8_validation_aggregates sampleBadRegistry (by decide)).2.2 _ (by decide),
   (C8_validation_aggregates sampleBadRegistry (by decide)).2.2 _ (by decide)⟩

/-- Claim C9: requesting an unrecognized (non-empty, non-placeholder)
method name never raises: the model returns a failed result with success
flag `false`, empty output text, and an error message naming the unknown
method. -/
theorem C9_unknown_method (methods : List (String × TranslitMethod))
    (san : String → String) (detect : String → List String)
    (name text : String) (match_case sanitize_input : Bool)
    (h1 : pyStrip name ≠ "") (h2 : name ≠ "Select method")
    (h3 : name ∉ methods.map Prod.fst) :
    (model_transliterate methods san detect name text match_case sanitize_input).1 = false
    ∧ (model_transliterate methods san detect name text match_case sanitize_input).2.1 = ""
    ∧ ("Invalid transliteration method: " ++ name).data
        <+: (model_transliterate methods san detect name text match_case sanitize_input).2.2.1.data := by
  have hne : name ≠ "" := fun hnil => h1 (by rw [hnil]; rfl)
  have hmv : validate_method_name (methods.map Prod.fst) name
      = (false, ["Invalid transliteration method: " ++ name]) := by
    unfold validate_method_name
    rw [if_neg (not_or.mpr ⟨hne, h1⟩), if_neg h2, if_pos h3]
  simp only [model_transliterate, validate_and_sanitize_input, hmv]
  simp only [Bool.false_and, eq_self_iff_true, if_true]
  refine ⟨trivial, trivial, ?_⟩
  rw [List.singleton_append]
  exact pyJoin_head_pref _ _ _

/-- Witness for C9: asking for the unregistered name `Bogus` on a
single-method registry yields a failed result with empty output whose
message names `Bogus`. -/
theorem C9_witness :
    (model_transliterate [("Georgian (Cyrillic)-->English (IC)", kaMethod)]
        id (fun _ => []) "Bogus" "abc" false true).1 = false
    ∧ (model_transliterate [("Georgian (Cyrillic)-->English (IC)", kaMethod)]
        id (fun _ => []) "Bogus" "abc" false true).2.1 = ""
    ∧ ("Invalid transliteration method: " ++ "Bogus").data
        <+: (model_transliterate [("Georgian (Cyrillic)-->English (IC)", kaMethod)]
        id (fun _ => []) "Bogus" "abc" false true).2.2.1.data :=
  C9_unknown_method [("Georgian (Cyrillic)-->English (IC)", kaMethod)]
    id (fun _ => []) "Bogus" "abc" false true (by decide) (by decide) (by decide)

end XlitTool
